import Mathlib

/-!
Verification development for the `sony-vp-extract` voice-pack decoder and
key-recovery tool. The definitions below are a shallow embedding of the
TypeScript source (`cli/extract.ts` and the extended variant with key
extraction): byte buffers become `List Nat` (each element a byte value),
`Buffer.readUInt32LE` becomes an `Option`-valued read that fails exactly when
the source would throw a `RangeError`, and the AES-128-CBC primitive used via
`node:crypto` is embedded as an executable AES implementation. The third-party
LZMA library (`LZMA.decompress`) is delegated code, not part of this
repository; it is abstracted as an explicit function parameter
`lzma : List Nat → Option (List Nat)` of the pipeline, so every theorem about
the pipeline holds for any decompressor the library may denote.
-/

/-- Byte of a buffer at an index, `0` out of range (JS indexing yields
`undefined`; every use below is either guarded or feeds a comparison where
the source's `undefined` behaves like a failed match). -/
def byteAt (l : List Nat) (i : Nat) : Nat := l.getD i 0

/-- Embedding of `Buffer.readUInt32LE(off)`: little-endian 32-bit read,
failing (as the Node API throws) when fewer than 4 bytes are available at
`off`. -/
def readUInt32LE (l : List Nat) (off : Nat) : Option Nat :=
  if off + 4 ≤ l.length then
    some (byteAt l off + 256 * byteAt l (off + 1) + 65536 * byteAt l (off + 2) +
      16777216 * byteAt l (off + 3))
  else none

theorem readUInt32LE_isSome_iff (l : List Nat) (off : Nat) :
    (readUInt32LE l off).isSome ↔ off + 4 ≤ l.length := by
  unfold readUInt32LE
  split <;> simp_all

/-! ### AES-128 block cipher (the `aes-128-cbc` primitive of `node:crypto`) -/

def sbox : List Nat := [
  0x63, 0x7c, 0x77, 0x7b, 0xf2, 0x6b, 0x6f, 0xc5, 0x30, 0x01, 0x67, 0x2b, 0xfe, 0xd7, 0xab, 0x76,
  0xca, 0x82, 0xc9, 0x7d, 0xfa, 0x59, 0x47, 0xf0, 0xad, 0xd4, 0xa2, 0xaf, 0x9c, 0xa4, 0x72, 0xc0,
  0xb7, 0xfd, 0x93, 0x26, 0x36, 0x3f, 0xf7, 0xcc, 0x34, 0xa5, 0xe5, 0xf1, 0x71, 0xd8, 0x31, 0x15,
  0x04, 0xc7, 0x23, 0xc3, 0x18, 0x96, 0x05, 0x9a, 0x07, 0x12, 0x80, 0xe2, 0xeb, 0x27, 0xb2, 0x75,
  0x09, 0x83, 0x2c, 0x1a, 0x1b, 0x6e, 0x5a, 0xa0, 0x52, 0x3b, 0xd6, 0xb3, 0x29, 0xe3, 0x2f, 0x84,
  0x53, 0xd1, 0x00, 0xed, 0x20, 0xfc, 0xb1, 0x5b, 0x6a, 0xcb, 0xbe, 0x39, 0x4a, 0x4c, 0x58, 0xcf,
  0xd0, 0xef, 0xaa, 0xfb, 0x43, 0x4d, 0x33, 0x85, 0x45, 0xf9, 0x02, 0x7f, 0x50, 0x3c, 0x9f, 0xa8,
  0x51, 0xa3, 0x40, 0x8f, 0x92, 0x9d, 0x38, 0xf5, 0xbc, 0xb6, 0xda, 0x21, 0x10, 0xff, 0xf3, 0xd2,
  0xcd, 0x0c, 0x13, 0xec, 0x5f, 0x97, 0x44, 0x17, 0xc4, 0xa7, 0x7e, 0x3d, 0x64, 0x5d, 0x19, 0x73,
  0x60, 0x81, 0x4f, 0xdc, 0x22, 0x2a, 0x90, 0x88, 0x46, 0xee, 0xb8, 0x14, 0xde, 0x5e, 0x0b, 0xdb,
  0xe0, 0x32, 0x3a, 0x0a, 0x49, 0x06, 0x24, 0x5c, 0xc2, 0xd3, 0xac, 0x62, 0x91, 0x95, 0xe4, 0x79,
  0xe7, 0xc8, 0x37, 0x6d, 0x8d, 0xd5, 0x4e, 0xa9, 0x6c, 0x56, 0xf4, 0xea, 0x65, 0x7a, 0xae, 0x08,
  0xba, 0x78, 0x25, 0x2e, 0x1c, 0xa6, 0xb4, 0xc6, 0xe8, 0xdd, 0x74, 0x1f, 0x4b, 0xbd, 0x8b, 0x8a,
  0x70, 0x3e, 0xb5, 0x66, 0x48, 0x03, 0xf6, 0x0e, 0x61, 0x35, 0x57, 0xb9, 0x86, 0xc1, 0x1d, 0x9e,
  0xe1, 0xf8, 0x98, 0x11, 0x69, 0xd9, 0x8e, 0x94, 0x9b, 0x1e, 0x87, 0xe9, 0xce, 0x55, 0x28, 0xdf,
  0x8c, 0xa1, 0x89, 0x0d, 0xbf, 0xe6, 0x42, 0x68, 0x41, 0x99, 0x2d, 0x0f, 0xb0, 0x54, 0xbb, 0x16]

def invSbox : List Nat := [
  0x52, 0x09, 0x6a, 0xd5, 0x30, 0x36, 0xa5, 0x38, 0xbf, 0x40, 0xa3, 0x9e, 0x81, 0xf3, 0xd7, 0xfb,
  0x7c, 0xe3, 0x39, 0x82, 0x9b, 0x2f, 0xff, 0x87, 0x34, 0x8e, 0x43, 0x44, 0xc4, 0xde, 0xe9, 0xcb,
  0x54, 0x7b, 0x94, 0x32, 0xa6, 0xc2, 0x23, 0x3d, 0xee, 0x4c, 0x95, 0x0b, 0x42, 0xfa, 0xc3, 0x4e,
  0x08, 0x2e, 0xa1, 0x66, 0x28, 0xd9, 0x24, 0xb2, 0x76, 0x5b, 0xa2, 0x49, 0x6d, 0x8b, 0xd1, 0x25,
  0x72, 0xf8, 0xf6, 0x64, 0x86, 0x68, 0x98, 0x16, 0xd4, 0xa4, 0x5c, 0xcc, 0x5d, 0x65, 0xb6, 0x92,
  0x6c, 0x70, 0x48, 0x50, 0xfd, 0xed, 0xb9, 0xda, 0x5e, 0x15, 0x46, 0x57, 0xa7, 0x8d, 0x9d, 0x84,
  0x90, 0xd8, 0xab, 0x00, 0x8c, 0xbc, 0xd3, 0x0a, 0xf7, 0xe4, 0x58, 0x05, 0xb8, 0xb3, 0x45, 0x06,
  0xd0, 0x2c, 0x1e, 0x8f, 0xca, 0x3f, 0x0f, 0x02, 0xc1, 0xaf, 0xbd, 0x03, 0x01, 0x13, 0x8a, 0x6b,
  0x3a, 0x91, 0x11, 0x41, 0x4f, 0x67, 0xdc, 0xea, 0x97, 0xf2, 0xcf, 0xce, 0xf0, 0xb4, 0xe6, 0x73,
  0x96, 0xac, 0x74, 0x22, 0xe7, 0xad, 0x35, 0x85, 0xe2, 0xf9, 0x37, 0xe8, 0x1c, 0x75, 0xdf, 0x6e,
  0x47, 0xf1, 0x1a, 0x71, 0x1d, 0x29, 0xc5, 0x89, 0x6f, 0xb7, 0x62, 0x0e, 0xaa, 0x18, 0xbe, 0x1b,
  0xfc, 0x56, 0x3e, 0x4b, 0xc6, 0xd2, 0x79, 0x20, 0x9a, 0xdb, 0xc0, 0xfe, 0x78, 0xcd, 0x5a, 0xf4,
  0x1f, 0xdd, 0xa8, 0x33, 0x88, 0x07, 0xc7, 0x31, 0xb1, 0x12, 0x10, 0x59, 0x27, 0x80, 0xec, 0x5f,
  0x60, 0x51, 0x7f, 0xa9, 0x19, 0xb5, 0x4a, 0x0d, 0x2d, 0xe5, 0x7a, 0x9f, 0x93, 0xc9, 0x9c, 0xef,
  0xa0, 0xe0, 0x3b, 0x4d, 0xae, 0x2a, 0xf5, 0xb0, 0xc8, 0xeb, 0xbb, 0x3c, 0x83, 0x53, 0x99, 0x61,
  0x17, 0x2b, 0x04, 0x7e, 0xba, 0x77, 0xd6, 0x26, 0xe1, 0x69, 0x14, 0x63, 0x55, 0x21, 0x0c, 0x7d]

def sboxAt (b : Nat) : Nat := sbox.getD b 0

def invSboxAt (b : Nat) : Nat := invSbox.getD b 0

/-- Multiplication by x in GF(2^8) modulo x^8 + x^4 + x^3 + x + 1. -/
def xtime (b : Nat) : Nat := if b < 128 then 2 * b else Nat.xor (2 * b) 0x11b

def mul2 (b : Nat) : Nat := xtime b

def mul3 (b : Nat) : Nat := Nat.xor (xtime b) b

def mul4 (b : Nat) : Nat := xtime (xtime b)

def mul8 (b : Nat) : Nat := xtime (mul4 b)

def mul9 (b : Nat) : Nat := Nat.xor (mul8 b) b

def mul11 (b : Nat) : Nat := Nat.xor (mul8 b) (Nat.xor (mul2 b) b)

def mul13 (b : Nat) : Nat := Nat.xor (mul8 b) (Nat.xor (mul4 b) b)

def mul14 (b : Nat) : Nat := Nat.xor (mul8 b) (Nat.xor (mul4 b) (mul2 b))

def rcon : List Nat := [0x01, 0x02, 0x04, 0x08, 0x10, 0x20, 0x40, 0x80, 0x1b, 0x36]

def xorWord (a b : List Nat) : List Nat := List.zipWith Nat.xor a b

def rotWord : List Nat → List Nat
  | [] => []
  | a :: rest => rest ++ [a]

def subWord (w : List Nat) : List Nat := w.map sboxAt

/-- AES-128 key schedule: 44 four-byte words. -/
def expandKey (key : List Nat) : List (List Nat) :=
  let w0 := (key.drop 0).take 4
  let w1 := (key.drop 4).take 4
  let w2 := (key.drop 8).take 4
  let w3 := (key.drop 12).take 4
  (List.range 40).foldl
    (fun ws j =>
      let i := j + 4
      let prev := ws.getD (i - 1) []
      let back := ws.getD (i - 4) []
      let nw :=
        if i % 4 = 0 then
          xorWord back (xorWord (subWord (rotWord prev)) [rcon.getD (i / 4 - 1) 0, 0, 0, 0])
        else xorWord back prev
      ws ++ [nw])
    [w0, w1, w2, w3]

/-- Round key `r` as 16 bytes in state order. -/
def roundKey (w : List (List Nat)) (r : Nat) : List Nat :=
  w.getD (4 * r) [] ++ w.getD (4 * r + 1) [] ++ w.getD (4 * r + 2) [] ++ w.getD (4 * r + 3) []

/-- Byte-wise xor of two 16-byte states; always yields 16 bytes. -/
def xorBytes16 (a b : List Nat) : List Nat :=
  (List.range 16).map fun i => Nat.xor (byteAt a i) (byteAt b i)

theorem length_xorBytes16 (a b : List Nat) : (xorBytes16 a b).length = 16 := by
  simp [xorBytes16]

def shiftRowsPerm : List Nat := [0, 5, 10, 15, 4, 9, 14, 3, 8, 13, 2, 7, 12, 1, 6, 11]

def invShiftRowsPerm : List Nat := [0, 13, 10, 7, 4, 1, 14, 11, 8, 5, 2, 15, 12, 9, 6, 3]

def shiftRows (s : List Nat) : List Nat := shiftRowsPerm.map fun j => byteAt s j

def invShiftRows (s : List Nat) : List Nat := invShiftRowsPerm.map fun j => byteAt s j

def mixColumns (s : List Nat) : List Nat :=
  (List.range 16).map fun i =>
    let c := i / 4 * 4
    let b0 := byteAt s c
    let b1 := byteAt s (c + 1)
    let b2 := byteAt s (c + 2)
    let b3 := byteAt s (c + 3)
    match i % 4 with
    | 0 => Nat.xor (mul2 b0) (Nat.xor (mul3 b1) (Nat.xor b2 b3))
    | 1 => Nat.xor b0 (Nat.xor (mul2 b1) (Nat.xor (mul3 b2) b3))
    | 2 => Nat.xor b0 (Nat.xor b1 (Nat.xor (mul2 b2) (mul3 b3)))
    | _ => Nat.xor (mul3 b0) (Nat.xor b1 (Nat.xor b2 (mul2 b3)))

def invMixColumns (s : List Nat) : List Nat :=
  (List.range 16).map fun i =>
    let c := i / 4 * 4
    let b0 := byteAt s c
    let b1 := byteAt s (c + 1)
    let b2 := byteAt s (c + 2)
    let b3 := byteAt s (c + 3)
    match i % 4 with
    | 0 => Nat.xor (mul14 b0) (Nat.xor (mul11 b1) (Nat.xor (mul13 b2) (mul9 b3)))
    | 1 => Nat.xor (mul9 b0) (Nat.xor (mul14 b1) (Nat.xor (mul11 b2) (mul13 b3)))
    | 2 => Nat.xor (mul13 b0) (Nat.xor (mul9 b1) (Nat.xor (mul14 b2) (mul11 b3)))
    | _ => Nat.xor (mul11 b0) (Nat.xor (mul13 b1) (Nat.xor (mul9 b2) (mul14 b3)))

/-- AES-128 single-block encryption (used only to build reference ciphertexts). -/
def aesEncBlock (key block : List Nat) : List Nat :=
  let w := expandKey key
  let s0 := xorBytes16 block (roundKey w 0)
  let s :=
    (List.range 9).foldl
      (fun s r => xorBytes16 (mixColumns (shiftRows (s.map sboxAt))) (roundKey w (r + 1))) s0
  xorBytes16 (shiftRows (s.map sboxAt)) (roundKey w 10)

/-- AES-128 single-block decryption. -/
def aesDecBlock (key block : List Nat) : List Nat :=
  let w := expandKey key
  let s0 := xorBytes16 block (roundKey w 10)
  let s :=
    (List.range 9).foldl
      (fun s r => invMixColumns (xorBytes16 ((invShiftRows s).map invSboxAt) (roundKey w (9 - r))))
      s0
  xorBytes16 ((invShiftRows s).map invSboxAt) (roundKey w 0)

theorem length_aesDecBlock (key block : List Nat) : (aesDecBlock key block).length = 16 := by
  simp [aesDecBlock, length_xorBytes16]

/-! ### CBC-mode decryption with `setAutoPadding(false)` -/

/-- Sequential CBC block decryption. `fuel` bounds the number of blocks; it is
instantiated with the ciphertext length, which always suffices. -/
def cbcDecGo (key : List Nat) : Nat → List Nat → List Nat → List Nat
  | 0, _, _ => []
  | fuel + 1, prev, ct =>
    if ct = [] then []
    else
      xorBytes16 (aesDecBlock key (ct.take 16)) prev ++ cbcDecGo key fuel (ct.take 16) (ct.drop 16)

/-- Embedding of the `createDecipheriv` + `setAutoPadding(false)` + `update` +
`final` sequence: fails (throws) when the key or IV is not 16 bytes or the
ciphertext is not block-aligned; otherwise returns exactly `ct.length` bytes
of plaintext with no padding removed. -/
def cbcDecryptNoPad (key iv ct : List Nat) : Option (List Nat) :=
  if key.length = 16 ∧ iv.length = 16 ∧ ct.length % 16 = 0 then
    some (cbcDecGo key ct.length iv ct)
  else none

/-- The source constant `KEY`, the bytes of the firmware key string. -/
def KEY : List Nat :=
  [0x65, 0x69, 0x62, 0x6f, 0x68, 0x6a, 0x65, 0x43, 0x68, 0x36, 0x75, 0x65, 0x67, 0x61, 0x68, 0x66]

/-- The source constant `IV`, the bytes of the firmware IV string. -/
def IV : List Nat :=
  [0x6d, 0x69, 0x65, 0x66, 0x65, 0x69, 0x6e, 0x75, 0x53, 0x68, 0x75, 0x39, 0x65, 0x69, 0x6c, 0x6f]

/-- The source function `decrypt(body)`: AES-128-CBC with the fixed key/IV
constants, no padding removed. -/
def decrypt (body : List Nat) : Option (List Nat) := cbcDecryptNoPad KEY IV body

/-! ### Header parser (`parseHeader`) -/

/-- Typed metadata from `parseHeader` (the `language` field is filename
plumbing, outside the byte-level model). -/
structure Header where
  fileSize : Nat
  bodySize : Nat
  compressionType : Nat
  decompressedSize : Nat
  destAddress : Nat
  deriving DecidableEq

/-- The source function `parseHeader(data, filename)`: its `readUInt32LE`
calls throw on a too-short buffer, while `data[0x104]` is plain indexing. -/
def parseHeader (data : List Nat) : Option Header := do
  let bodySize ← readUInt32LE data 0x10a
  let compressionType := byteAt data 0x104
  let decompressedSize ← readUInt32LE data 0x13a
  let destAddress ← readUInt32LE data 0x13e
  pure ⟨data.length, bodySize, compressionType, decompressedSize, destAddress⟩

/-! ### Asset table parser (the loop body of `extractPrompts`) -/

/-- One extracted `(index, size, data)` record pushed into `prompts`. -/
structure Prompt where
  index : Nat
  size : Nat
  data : List Nat
  deriving DecidableEq

/-- The `for (let i = 0; i < numEntries; i++)` loop of `extractPrompts`:
reads entry `i`'s size and absolute offset (a throwing read aborts the whole
extraction), converts to a local offset, and keeps the slice only when it is
in bounds. `fuel` counts the remaining iterations (`numEntries - i`). -/
def promptsGo (dec : List Nat) (base : Int) : Nat → Nat → Option (List Prompt)
  | _, 0 => some []
  | i, fuel + 1 =>
    match readUInt32LE dec (8 + i * 8), readUInt32LE dec (8 + i * 8 + 4) with
    | some size, some abs =>
      match promptsGo dec base (i + 1) fuel with
      | some rest =>
        if (abs : Int) - base < 0 ∨ (dec.length : Int) < (abs : Int) - base + (size : Int) then
          some rest
        else some (⟨i, size, (dec.drop ((abs : Int) - base).toNat).take size⟩ :: rest)
      | none => none
    | _, _ => none

/-- The asset-table portion of `extractPrompts`, a pure function of the
decompressed buffer: `numEntries`, `tableEnd`, `baseOffset`, then the loop. -/
def parseAssetTable (dec : List Nat) : Option (List Prompt) :=
  match readUInt32LE dec 4, readUInt32LE dec 12 with
  | some numEntries, some firstAbs =>
    promptsGo dec ((firstAbs : Int) - (8 + (numEntries : Int) * 8)) 0 numEntries
  | _, _ => none

/-- The source function `extractPrompts(data)`: drop the 4096-byte header,
decrypt, decompress (the delegated LZMA library is the parameter `lzma`),
then parse the asset table. A failure at any stage rejects the whole
extraction. -/
def extractPrompts (lzma : List Nat → Option (List Nat)) (data : List Nat) :
    Option (List Prompt) :=
  match decrypt (data.drop 0x1000) with
  | none => none
  | some decrypted =>
    match lzma decrypted with
    | none => none
    | some decompressed => parseAssetTable decompressed

/-! Derived views of a table entry, used to state the claims. They agree with
the loop's values whenever the loop's reads succeed. -/

/-- The table entry count, read at offset 4 of the decompressed buffer. -/
def numEntriesD (dec : List Nat) : Nat := (readUInt32LE dec 4).getD 0

/-- The derived base offset: first absolute offset minus the table length. -/
def baseOffsetD (dec : List Nat) : Int :=
  ((readUInt32LE dec 12).getD 0 : Int) - (8 + (numEntriesD dec : Int) * 8)

/-- Size field of table entry `i`. -/
def entrySizeD (dec : List Nat) (i : Nat) : Nat := (readUInt32LE dec (8 + i * 8)).getD 0

/-- Absolute-offset field of table entry `i`. -/
def entryAbsD (dec : List Nat) (i : Nat) : Nat := (readUInt32LE dec (8 + i * 8 + 4)).getD 0

/-- The local offset of entry `i`: absolute offset minus the base offset. -/
def localOffsetD (dec : List Nat) (i : Nat) : Int := (entryAbsD dec i : Int) - baseOffsetD dec

/-- Entry `i` passes the bounds filter of the loop. -/
def entryGood (dec : List Nat) (base : Int) (i : Nat) : Bool :=
  decide (0 ≤ (entryAbsD dec i : Int) - base ∧
    (entryAbsD dec i : Int) - base + (entrySizeD dec i : Int) ≤ (dec.length : Int))

/-- The record the loop pushes for a kept entry `i`. -/
def mkPrompt (dec : List Nat) (base : Int) (i : Nat) : Prompt :=
  ⟨i, entrySizeD dec i, (dec.drop ((entryAbsD dec i : Int) - base).toNat).take (entrySizeD dec i)⟩

/-! ### Candidate scanner (`findAscii16Strings`) -/

/-- A key/IV candidate: `{ offset, value }`. -/
structure Candidate where
  offset : Nat
  value : List Nat
  deriving DecidableEq

/-- Position `i` yields a candidate: 16 strictly printable bytes followed by a
NUL byte (the `i + 16 < fw.length` conjunct is the source's own check). -/
def okAt (fw : List Nat) (i : Nat) : Bool :=
  ((List.range 16).all fun j => decide (32 < byteAt fw (i + j) ∧ byteAt fw (i + j) < 127)) &&
    decide (i + 16 < fw.length) && decide (byteAt fw (i + 16) = 0)

/-- The scan loop of `findAscii16Strings`; `fuel` counts remaining iterations
of `for (let i = 0; i < fw.length - 16; i++)`. -/
def scanGo (fw : List Nat) : Nat → Nat → List Candidate
  | _, 0 => []
  | i, fuel + 1 =>
    if okAt fw i then ⟨i, (fw.drop i).take 16⟩ :: scanGo fw (i + 1) fuel
    else scanGo fw (i + 1) fuel

/-- The source function `findAscii16Strings(fw)`. -/
def findAscii16Strings (fw : List Nat) : List Candidate := scanGo fw 0 (fw.length - 16)

/-! ### Pairing oracle (`tryKeyIvPair`) -/

/-- Decryption of only the first ciphertext block, before padding handling:
`Dec_key(ct[0..16]) xor iv`. -/
def firstBlockPlain (key iv ct : List Nat) : List Nat :=
  xorBytes16 (aesDecBlock key (ct.take 16)) iv

/-- The source function `tryKeyIvPair(key, iv, ciphertext)`: decrypt the
16-byte block (no `final()`, so no padding is touched), then check the LZMA
properties byte 0x5D and the little-endian dictionary size 16384. A bad key
or IV length makes `createDecipheriv` throw, caught as `false`; a ciphertext
shorter than one block makes `update` return no bytes, so the 0x5D check
fails on an absent byte. -/
def tryKeyIvPair (key iv ciphertext : List Nat) : Bool :=
  if key.length = 16 ∧ iv.length = 16 then
    if 16 ≤ ciphertext.length then
      let dec := firstBlockPlain key iv ciphertext
      if byteAt dec 0 = 0x5d then
        match readUInt32LE dec 1 with
        | some dictSize => dictSize == 16384
        | none => false
      else false
    else false
  else false

/-! ### Key recovery search (`extractKey`), modelled on its pure search core -/

/-- Outcome of `extractKey` after the candidate scan: either a recovered
key/IV pair (with their firmware offsets, as passed to `printKeyResult`) or a
`process.exit(code)` call terminating the host process. -/
inductive KeyOutcome where
  | found (key iv : List Nat) (keyOff ivOff : Nat)
  | exitProcess (code : Nat)
  deriving DecidableEq

/-- Inner loop `for (let j = ci + 1; j < Math.min(ci + 6, candidates.length); j++)`:
try `(b.value, a.value)` then `(a.value, b.value)` against the sample body. -/
def searchWindow (cands : List Candidate) (body : List Nat) (a : Candidate) :
    Nat → Nat → Option KeyOutcome
  | _, 0 => none
  | j, fuel + 1 =>
    let b := cands.getD j ⟨0, []⟩
    if tryKeyIvPair b.value a.value body then some (.found b.value a.value b.offset a.offset)
    else if tryKeyIvPair a.value b.value body then some (.found a.value b.value a.offset b.offset)
    else searchWindow cands body a (j + 1) fuel

/-- Outer loop `for (let ci = 0; ci < candidates.length; ci++)`. -/
def searchFrom (cands : List Candidate) (body : List Nat) : Nat → Nat → Option KeyOutcome
  | _, 0 => none
  | ci, fuel + 1 =>
    let a := cands.getD ci ⟨0, []⟩
    match searchWindow cands body a (ci + 1) (min (ci + 6) cands.length - (ci + 1)) with
    | some r => some r
    | none => searchFrom cands body (ci + 1) fuel

/-- The decision core of `async function extractKey(firmwarePath)`, given the
firmware bytes and the reference ciphertext body (file/CDN I/O is the
caller's): fewer than two candidates exits the process, a passing pair is
printed and returned, an exhausted search prints a failure message and calls
`process.exit(1)`. -/
def extractKeyModel (fw body : List Nat) : KeyOutcome :=
  let cands := findAscii16Strings fw
  if cands.length < 2 then .exitProcess 1
  else
    match searchFrom cands body 0 cands.length with
    | some r => r
    | none => .exitProcess 1

/-! ### Supporting lemmas -/

theorem readUInt32LE_some_le {l : List Nat} {off v : Nat} (h : readUInt32LE l off = some v) :
    off + 4 ≤ l.length := by
  by_contra hlt
  unfold readUInt32LE at h
  rw [if_neg hlt] at h
  exact Option.noConfusion h

theorem readUInt32LE_eq_getD {l : List Nat} {off : Nat} (h : off + 4 ≤ l.length) :
    readUInt32LE l off = some ((readUInt32LE l off).getD 0) := by
  unfold readUInt32LE
  rw [if_pos h]
  rfl

theorem cbcDecGo_length (key : List Nat) :
    ∀ (fuel : Nat) (prev ct : List Nat), ct.length ≤ 16 * fuel → ct.length % 16 = 0 →
      (cbcDecGo key fuel prev ct).length = ct.length := by
  intro fuel
  induction fuel with
  | zero =>
    intro prev ct hle _
    have : ct = [] := List.eq_nil_of_length_eq_zero (by omega)
    subst this
    simp [cbcDecGo]
  | succ fuel ih =>
    intro prev ct hle hmod
    by_cases hct : ct = []
    · subst hct; simp [cbcDecGo]
    · have hpos : 0 < ct.length := List.length_pos.mpr hct
      have h16 : 16 ≤ ct.length := by omega
      have hdrop : (ct.drop 16).length = ct.length - 16 := by simp
      simp only [cbcDecGo, if_neg hct, List.length_append, length_xorBytes16]
      rw [ih (ct.take 16) (ct.drop 16) (by omega) (by omega)]
      omega

/-- C5: the Block Decryptor, given a 16-byte key and 16-byte IV, fails exactly
when the ciphertext length is not a multiple of the 16-byte block size, and
otherwise returns exactly as many plaintext bytes as ciphertext bytes, with no
padding stripped. (`decrypt` of the source is this function at the fixed
`KEY`/`IV` constants.) -/
theorem cbcDecrypt_length_alignment :
    ∀ key iv ct : List Nat, key.length = 16 → iv.length = 16 →
      ((cbcDecryptNoPad key iv ct = none ↔ ct.length % 16 ≠ 0) ∧
        ∀ pt, cbcDecryptNoPad key iv ct = some pt → pt.length = ct.length) := by
  intro key iv ct hk hiv
  constructor
  · constructor
    · intro hnone hmod
      unfold cbcDecryptNoPad at hnone
      rw [if_pos ⟨hk, hiv, hmod⟩] at hnone
      exact Option.noConfusion hnone
    · intro hmod
      unfold cbcDecryptNoPad
      rw [if_neg (by tauto)]
  · intro pt hpt
    unfold cbcDecryptNoPad at hpt
    by_cases hmod : ct.length % 16 = 0
    · rw [if_pos ⟨hk, hiv, hmod⟩] at hpt
      have := cbcDecGo_length key ct.length iv ct (by omega) hmod
      cases hpt
      omega
    · rw [if_neg (by tauto)] at hpt
      exact Option.noConfusion hpt

/-- Witness for C5 at the source's own constants and a 32-byte (two-block)
all-zero ciphertext. -/
theorem cbcDecrypt_length_alignment_witness :
    KEY.length = 16 ∧ IV.length = 16 ∧
      ((cbcDecryptNoPad KEY IV (List.replicate 32 0) = none ↔
          (List.replicate 32 0 : List Nat).length % 16 ≠ 0) ∧
        ∀ pt, cbcDecryptNoPad KEY IV (List.replicate 32 0) = some pt →
          pt.length = (List.replicate 32 0 : List Nat).length) :=
  ⟨by decide, by decide,
    cbcDecrypt_length_alignment KEY IV (List.replicate 32 0) (by decide) (by decide)⟩

theorem promptsGo_eq_some (dec : List Nat) (base : Int) :
    ∀ (fuel i : Nat), (∀ k, i ≤ k → k < i + fuel → 8 + k * 8 + 8 ≤ dec.length) →
      promptsGo dec base i fuel =
        some (((List.range' i fuel).filter (entryGood dec base)).map (mkPrompt dec base)) := by
  intro fuel
  induction fuel with
  | zero => intro i _; simp [promptsGo]
  | succ fuel ih =>
    intro i h
    have hk : 8 + i * 8 + 8 ≤ dec.length := h i (le_refl i) (by omega)
    obtain ⟨s, hs⟩ : ∃ s, readUInt32LE dec (8 + i * 8) = some s :=
      ⟨_, readUInt32LE_eq_getD (by omega)⟩
    obtain ⟨a, ha⟩ : ∃ a, readUInt32LE dec (8 + i * 8 + 4) = some a :=
      ⟨_, readUInt32LE_eq_getD (by omega)⟩
    have hsd : entrySizeD dec i = s := by simp [entrySizeD, hs]
    have had : entryAbsD dec i = a := by simp [entryAbsD, ha]
    have hrest := ih (i + 1) (fun k hk1 hk2 => h k (by omega) (by omega))
    rw [List.range'_succ]
    simp only [promptsGo, hs, ha, hrest, List.filter_cons]
    by_cases hg : entryGood dec base i = true
    · have hnc : ¬((a : Int) - base < 0 ∨
          (dec.length : Int) < (a : Int) - base + (s : Int)) := by
        simp only [entryGood, hsd, had, decide_eq_true_eq] at hg
        omega
      rw [if_neg hnc, hg]
      simp only [if_true, List.map_cons, mkPrompt, hsd, had]
    · have hc : (a : Int) - base < 0 ∨
          (dec.length : Int) < (a : Int) - base + (s : Int) := by
        simp only [entryGood, hsd, had, decide_eq_true_eq] at hg
        omega
      rw [if_pos hc]
      simp [eq_false_of_ne_true hg]

theorem promptsGo_some_reads (dec : List Nat) (base : Int) :
    ∀ (fuel i : Nat) (ps : List Prompt), promptsGo dec base i fuel = some ps →
      ∀ k, i ≤ k → k < i + fuel → 8 + k * 8 + 8 ≤ dec.length := by
  intro fuel
  induction fuel with
  | zero => intro i ps _ k hk1 hk2; omega
  | succ fuel ih =>
    intro i ps hps k hk1 hk2
    rcases h1 : readUInt32LE dec (8 + i * 8) with _ | s
    · simp only [promptsGo, h1] at hps
      exact Option.noConfusion hps
    rcases h2 : readUInt32LE dec (8 + i * 8 + 4) with _ | a
    · simp only [promptsGo, h1, h2] at hps
      exact Option.noConfusion hps
    rcases h3 : promptsGo dec base (i + 1) fuel with _ | rest
    · simp only [promptsGo, h1, h2, h3] at hps
      exact Option.noConfusion hps
    by_cases hik : k = i
    · subst hik
      have := readUInt32LE_some_le h2
      omega
    · exact ih (i + 1) rest h3 k (by omega) (by omega)

theorem parseAssetTable_char {dec : List Nat} {ps : List Prompt}
    (h : parseAssetTable dec = some ps) :
    16 ≤ dec.length ∧
      (∀ k, k < numEntriesD dec → 8 + k * 8 + 8 ≤ dec.length) ∧
      ps = ((List.range (numEntriesD dec)).filter (entryGood dec (baseOffsetD dec))).map
        (mkPrompt dec (baseOffsetD dec)) := by
  rcases h4 : readUInt32LE dec 4 with _ | n
  · simp only [parseAssetTable, h4] at h
    exact Option.noConfusion h
  rcases h12 : readUInt32LE dec 12 with _ | f
  · simp only [parseAssetTable, h4, h12] at h
    exact Option.noConfusion h
  simp only [parseAssetTable, h4, h12] at h
  have hn : numEntriesD dec = n := by simp [numEntriesD, h4]
  have hb : baseOffsetD dec = (f : Int) - (8 + (n : Int) * 8) := by
    simp [baseOffsetD, h12, hn]
  have hreads := promptsGo_some_reads dec ((f : Int) - (8 + (n : Int) * 8)) n 0 ps h
  refine ⟨readUInt32LE_some_le h12, ?_, ?_⟩
  · intro k hk
    rw [hn] at hk
    exact hreads k (by omega) (by omega)
  · rw [promptsGo_eq_some dec _ n 0 (fun k hk1 hk2 => hreads k hk1 hk2)] at h
    injection h with h
    rw [← h, hn, hb, List.range_eq_range']

theorem extractPrompts_some {lzma : List Nat → Option (List Nat)} {data : List Nat}
    {ps : List Prompt} (h : extractPrompts lzma data = some ps) :
    ∃ dec, (decrypt (data.drop 0x1000)).bind lzma = some dec ∧ parseAssetTable dec = some ps := by
  rcases hdec : decrypt (data.drop 0x1000) with _ | decrypted
  · simp only [extractPrompts, hdec] at h
    exact Option.noConfusion h
  rcases hlz : lzma decrypted with _ | decompressed
  · simp only [extractPrompts, hdec, hlz] at h
    exact Option.noConfusion h
  refine ⟨decompressed, ?_, ?_⟩
  · rw [Option.some_bind, hlz]
  · simpa only [extractPrompts, hdec, hlz] using h

theorem mem_parseAssetTable {dec : List Nat} {ps : List Prompt} {p : Prompt}
    (h : parseAssetTable dec = some ps) (hp : p ∈ ps) :
    p.index < numEntriesD dec ∧ entryGood dec (baseOffsetD dec) p.index = true ∧
      p = mkPrompt dec (baseOffsetD dec) p.index := by
  obtain ⟨-, -, hps⟩ := parseAssetTable_char h
  rw [hps] at hp
  obtain ⟨i, hi, rfl⟩ := List.mem_map.mp hp
  obtain ⟨hir, hig⟩ := List.mem_filter.mp hi
  have hidx : (mkPrompt dec (baseOffsetD dec) i).index = i := rfl
  rw [hidx]
  exact ⟨List.mem_range.mp hir, hig, rfl⟩

/-- C1: every `(index, byte-slice)` pair returned by the asset-table stage of
`extractPrompts` satisfies the bounds invariant relative to the decompressed
buffer: the entry's local offset is non-negative and local offset plus size
stays within the buffer; an out-of-bounds entry never appears in the result. -/
theorem extractPrompts_bounds_invariant :
    ∀ (lzma : List Nat → Option (List Nat)) (data : List Nat) (ps : List Prompt),
      extractPrompts lzma data = some ps →
      ∃ dec, (decrypt (data.drop 0x1000)).bind lzma = some dec ∧
        parseAssetTable dec = some ps ∧
        ∀ p ∈ ps, 0 ≤ localOffsetD dec p.index ∧
          localOffsetD dec p.index + (p.size : Int) ≤ (dec.length : Int) := by
  intro lzma data ps h
  obtain ⟨dec, hbind, htab⟩ := extractPrompts_some h
  refine ⟨dec, hbind, htab, ?_⟩
  intro p hp
  obtain ⟨-, hg, hmk⟩ := mem_parseAssetTable htab hp
  have hsz : p.size = entrySizeD dec p.index := by rw [hmk]; rfl
  simp only [entryGood, decide_eq_true_eq] at hg
  rw [hsz]
  exact hg

/-- Witness for C1 on a concrete container and a one-entry table. -/
def lzmaStub (tbl : List Nat) : List Nat → Option (List Nat) := fun _ => some tbl

def tbl1 : List Nat := [1, 0, 0, 0, 1, 0, 0, 0, 2, 0, 0, 0, 16, 0, 0, 0, 0xAA, 0xBB]

theorem extractPrompts_bounds_invariant_witness :
    extractPrompts (lzmaStub tbl1) [] = some [⟨0, 2, [0xAA, 0xBB]⟩] ∧
      ∃ dec, (decrypt (([] : List Nat).drop 0x1000)).bind (lzmaStub tbl1) = some dec ∧
        parseAssetTable dec = some [⟨0, 2, [0xAA, 0xBB]⟩] ∧
        ∀ p ∈ ([⟨0, 2, [0xAA, 0xBB]⟩] : List Prompt), 0 ≤ localOffsetD dec p.index ∧
          localOffsetD dec p.index + (p.size : Int) ≤ (dec.length : Int) :=
  ⟨by decide, extractPrompts_bounds_invariant (lzmaStub tbl1) [] _ (by decide)⟩

/-- C7: the asset-table stage derives `base_offset` as the first entry's
absolute offset minus the table length `8 + entry_count * 8`, and every
returned entry's bytes are sliced at `local_offset = absolute_offset -
base_offset`. -/
theorem parseAssetTable_base_offset_mapping :
    ∀ (dec : List Nat) (ps : List Prompt), parseAssetTable dec = some ps →
      baseOffsetD dec =
        ((readUInt32LE dec 12).getD 0 : Int) - (8 + (numEntriesD dec : Int) * 8) ∧
      ∀ p ∈ ps, localOffsetD dec p.index = (entryAbsD dec p.index : Int) - baseOffsetD dec ∧
        p.size = entrySizeD dec p.index ∧
        p.data = (dec.drop (localOffsetD dec p.index).toNat).take (entrySizeD dec p.index) := by
  intro dec ps h
  refine ⟨rfl, ?_⟩
  intro p hp
  obtain ⟨-, -, hmk⟩ := mem_parseAssetTable h hp
  refine ⟨rfl, ?_, ?_⟩
  · rw [hmk]; rfl
  · rw [hmk]; rfl

def tbl2 : List Nat :=
  [1, 0, 0, 0, 2, 0, 0, 0, 1, 0, 0, 0, 24, 0, 0, 0, 1, 0, 0, 0, 25, 0, 0, 0, 0xCC, 0xDD]

theorem parseAssetTable_base_offset_mapping_witness :
    parseAssetTable tbl2 = some [⟨0, 1, [0xCC]⟩, ⟨1, 1, [0xDD]⟩] ∧
      (baseOffsetD tbl2 =
        ((readUInt32LE tbl2 12).getD 0 : Int) - (8 + (numEntriesD tbl2 : Int) * 8) ∧
      ∀ p ∈ ([⟨0, 1, [0xCC]⟩, ⟨1, 1, [0xDD]⟩] : List Prompt),
        localOffsetD tbl2 p.index = (entryAbsD tbl2 p.index : Int) - baseOffsetD tbl2 ∧
        p.size = entrySizeD tbl2 p.index ∧
        p.data = (tbl2.drop (localOffsetD tbl2 p.index).toNat).take (entrySizeD tbl2 p.index)) :=
  ⟨by decide, parseAssetTable_base_offset_mapping tbl2 _ (by decide)⟩

/-- C9: the pairs are returned in table order with strictly increasing indices,
each index is the entry's 0-based table position and identifies the table
record its size and bytes came from; a skipped out-of-bounds entry neither
renumbers nor reorders the survivors. -/
theorem extractPrompts_preserves_table_order :
    ∀ (lzma : List Nat → Option (List Nat)) (data : List Nat) (ps : List Prompt),
      extractPrompts lzma data = some ps →
      ∃ dec, (decrypt (data.drop 0x1000)).bind lzma = some dec ∧
        parseAssetTable dec = some ps ∧
        List.Pairwise (· < ·) (ps.map Prompt.index) ∧
        ∀ p ∈ ps, p.index < numEntriesD dec ∧ p.size = entrySizeD dec p.index ∧
          p.data = (dec.drop (localOffsetD dec p.index).toNat).take (entrySizeD dec p.index) := by
  intro lzma data ps h
  obtain ⟨dec, hbind, htab⟩ := extractPrompts_some h
  refine ⟨dec, hbind, htab, ?_, ?_⟩
  · obtain ⟨-, -, hps⟩ := parseAssetTable_char htab
    have hmapidx : ps.map Prompt.index =
        (List.range (numEntriesD dec)).filter (entryGood dec (baseOffsetD dec)) := by
      rw [hps, List.map_map]
      exact List.map_id _
    rw [hmapidx]
    exact (List.pairwise_lt_range _).filter _
  · intro p hp
    obtain ⟨hilt, -, hmk⟩ := mem_parseAssetTable htab hp
    refine ⟨hilt, ?_, ?_⟩
    · rw [hmk]; rfl
    · rw [hmk]; rfl

theorem extractPrompts_preserves_table_order_witness :
    extractPrompts (lzmaStub tbl2) [] = some [⟨0, 1, [0xCC]⟩, ⟨1, 1, [0xDD]⟩] ∧
      ∃ dec, (decrypt (([] : List Nat).drop 0x1000)).bind (lzmaStub tbl2) = some dec ∧
        parseAssetTable dec = some [⟨0, 1, [0xCC]⟩, ⟨1, 1, [0xDD]⟩] ∧
        List.Pairwise (· < ·)
          (([⟨0, 1, [0xCC]⟩, ⟨1, 1, [0xDD]⟩] : List Prompt).map Prompt.index) ∧
        ∀ p ∈ ([⟨0, 1, [0xCC]⟩, ⟨1, 1, [0xDD]⟩] : List Prompt),
          p.index < numEntriesD dec ∧ p.size = entrySizeD dec p.index ∧
          p.data = (dec.drop (localOffsetD dec p.index).toNat).take (entrySizeD dec p.index) :=
  ⟨by decide, extractPrompts_preserves_table_order (lzmaStub tbl2) [] _ (by decide)⟩

theorem length_filter_one_false :
    ∀ (p : Nat → Bool) (n j : Nat), j < n → p j = false → (∀ k, k < n → k ≠ j → p k = true) →
      ((List.range n).filter p).length = n - 1 := by
  intro p n
  induction n with
  | zero => intro j hj; omega
  | succ n ih =>
    intro j hj hpj hrest
    rw [List.range_succ, List.filter_append, List.length_append]
    by_cases hjn : j = n
    · subst hjn
      have hall : (List.range j).filter p = List.range j := by
        apply List.filter_eq_self.mpr
        intro a ha
        have halt := List.mem_range.mp ha
        exact hrest a (by omega) (by omega)
      rw [hall]
      simp [List.filter_cons, hpj]
    · have hlt : j < n := by omega
      have hn : p n = true := hrest n (by omega) fun hc => hjn hc.symm
      rw [ih j hlt hpj fun k hk hkj => hrest k (by omega) hkj]
      simp only [List.filter_cons, hn, if_true, List.filter_nil, List.length_cons,
        List.length_nil]
      omega

/-- C6: per-entry failure tolerance — on a table of `entry_count` readable
entries where exactly one entry fails the bounds check and all others pass,
the asset-table stage still succeeds and returns `entry_count - 1` assets. -/
theorem parseAssetTable_one_bad_entry :
    ∀ (dec : List Nat) (n j : Nat),
      readUInt32LE dec 4 = some n →
      (∀ k, k < n → 8 + k * 8 + 8 ≤ dec.length) →
      j < n → entryGood dec (baseOffsetD dec) j = false →
      (∀ k, k < n → k ≠ j → entryGood dec (baseOffsetD dec) k = true) →
      ∃ ps, parseAssetTable dec = some ps ∧ ps.length = n - 1 := by
  intro dec n j h4 hreads hj hbad hgood
  have hn : numEntriesD dec = n := by simp [numEntriesD, h4]
  have h16 : 16 ≤ dec.length := by have := hreads 0 (by omega); omega
  obtain ⟨f, h12⟩ : ∃ f, readUInt32LE dec 12 = some f :=
    ⟨_, readUInt32LE_eq_getD (by omega)⟩
  have hb : (f : Int) - (8 + (n : Int) * 8) = baseOffsetD dec := by
    rw [baseOffsetD, hn]
    simp [h12]
  refine ⟨((List.range n).filter (entryGood dec (baseOffsetD dec))).map
      (mkPrompt dec (baseOffsetD dec)), ?_, ?_⟩
  · simp only [parseAssetTable, h4, h12]
    rw [hb, promptsGo_eq_some dec (baseOffsetD dec) n 0 (fun k hk1 hk2 => hreads k (by omega)),
      List.range_eq_range']
  · rw [List.length_map]
    exact length_filter_one_false _ n j hj hbad hgood

def tbl3 : List Nat :=
  [1, 0, 0, 0, 2, 0, 0, 0, 2, 0, 0, 0, 24, 0, 0, 0, 1, 0, 0, 0, 232, 3, 0, 0, 0xAA, 0xBB]

theorem parseAssetTable_one_bad_entry_witness :
    readUInt32LE tbl3 4 = some 2 ∧ entryGood tbl3 (baseOffsetD tbl3) 1 = false ∧
      ∃ ps, parseAssetTable tbl3 = some ps ∧ ps.length = 2 - 1 :=
  ⟨by decide, by decide,
    parseAssetTable_one_bad_entry tbl3 2 1 (by decide)
      (by decide) (by decide) (by decide) (by decide)⟩

theorem scanGo_eq (fw : List Nat) :
    ∀ (fuel i : Nat), scanGo fw i fuel =
      ((List.range' i fuel).filter (okAt fw)).map fun k => ⟨k, (fw.drop k).take 16⟩ := by
  intro fuel
  induction fuel with
  | zero => intro i; simp [scanGo]
  | succ fuel ih =>
    intro i
    rw [List.range'_succ]
    by_cases hok : okAt fw i
    · simp [scanGo, hok, List.filter_cons, ih (i + 1)]
    · simp [scanGo, hok, List.filter_cons, ih (i + 1)]

/-- C3: scanner completeness and exactness — whenever the 16 bytes at
`[i, i + 16)` are all strictly printable (33..126) and the byte at `i + 16`
exists and is 0x00, the scan reports the pair `(i, fw[i..i+16])`, and every
reported pair at offset `i` carries exactly those bytes. -/
theorem findAscii16Strings_complete :
    ∀ (fw : List Nat) (i : Nat),
      i + 16 < fw.length →
      (∀ j, j < 16 → 33 ≤ byteAt fw (i + j) ∧ byteAt fw (i + j) ≤ 126) →
      byteAt fw (i + 16) = 0 →
      (⟨i, (fw.drop i).take 16⟩ : Candidate) ∈ findAscii16Strings fw ∧
        ∀ v, (⟨i, v⟩ : Candidate) ∈ findAscii16Strings fw → v = (fw.drop i).take 16 := by
  intro fw i hlen hprint hnul
  have hok : okAt fw i = true := by
    unfold okAt
    simp only [Bool.and_eq_true, List.all_eq_true, decide_eq_true_eq]
    refine ⟨⟨?_, hlen⟩, hnul⟩
    intro j hj
    have := hprint j (List.mem_range.mp hj)
    omega
  have hmem : ∀ c : Candidate, c ∈ findAscii16Strings fw ↔
      (c.offset ∈ (List.range' 0 (fw.length - 16)).filter (okAt fw) ∧
        c.value = (fw.drop c.offset).take 16) := by
    intro c
    unfold findAscii16Strings
    rw [scanGo_eq fw (fw.length - 16) 0, List.mem_map]
    constructor
    · rintro ⟨k, hk, rfl⟩
      exact ⟨hk, rfl⟩
    · rintro ⟨hk, hv⟩
      exact ⟨c.offset, hk, by cases c; simp_all⟩
  constructor
  · rw [hmem]
    refine ⟨List.mem_filter.mpr ⟨?_, hok⟩, rfl⟩
    rw [← List.range_eq_range', List.mem_range]
    show i < fw.length - 16
    omega
  · intro v hv
    exact ((hmem ⟨i, v⟩).mp hv).2

def fwSample : List Nat := List.replicate 10 0 ++ List.replicate 16 65 ++ [0]

theorem findAscii16Strings_complete_witness :
    (10 + 16 < fwSample.length ∧
      (∀ j, j < 16 → 33 ≤ byteAt fwSample (10 + j) ∧ byteAt fwSample (10 + j) ≤ 126) ∧
      byteAt fwSample (10 + 16) = 0) ∧
      ((⟨10, (fwSample.drop 10).take 16⟩ : Candidate) ∈ findAscii16Strings fwSample ∧
        ∀ v, (⟨10, v⟩ : Candidate) ∈ findAscii16Strings fwSample →
          v = (fwSample.drop 10).take 16) :=
  ⟨⟨by decide, by decide, by decide⟩,
    findAscii16Strings_complete fwSample 10 (by decide) (by decide) (by decide)⟩

/-- A reference first ciphertext block built so that its CBC decryption under
the firmware key/IV is the LZMA header `5D 00 40 00 00 ...` (properties byte
0x5D, dictionary size 16384 little-endian). -/
def refCiphertext : List Nat :=
  aesEncBlock KEY (xorBytes16 [0x5d, 0, 0x40, 0, 0, 0, 0, 0, 0, 0, 0, 0, 0, 0, 0, 0] IV)

set_option maxRecDepth 200000 in
/-- C2: the pairing oracle accepts a 16-byte `(key, iv)` hypothesis against a
(at least one block long) reference ciphertext exactly when decrypting only
the first 16-byte block, with no padding removed, yields byte 0 = 0x5D and
little-endian 32-bit value 16384 at bytes 1..5; in particular the firmware
key/IV pair is accepted on the reference block and a one-byte-mutated key is
rejected. -/
theorem tryKeyIvPair_oracle_spec :
    (∀ key iv ct : List Nat, key.length = 16 → iv.length = 16 → 16 ≤ ct.length →
      (tryKeyIvPair key iv ct = true ↔
        byteAt (firstBlockPlain key iv ct) 0 = 0x5d ∧
          readUInt32LE (firstBlockPlain key iv ct) 1 = some 16384)) ∧
      tryKeyIvPair KEY IV refCiphertext = true ∧
      tryKeyIvPair (KEY.set 0 0x64) IV refCiphertext = false := by
  refine ⟨?_, by decide, by decide⟩
  intro key iv ct hk hiv hct
  unfold tryKeyIvPair
  rw [if_pos ⟨hk, hiv⟩, if_pos hct]
  have hlen : (firstBlockPlain key iv ct).length = 16 := length_xorBytes16 _ _
  have h1 := @readUInt32LE_eq_getD (firstBlockPlain key iv ct) 1 (by omega)
  by_cases h0 : byteAt (firstBlockPlain key iv ct) 0 = 0x5d
  · rw [if_pos h0, h1]
    simp only [beq_iff_eq, h0, true_and]
    constructor
    · intro hv
      rw [h1, hv]
      rfl
    · intro hv
      rw [h1] at hv
      exact Option.some_inj.mp hv
  · rw [if_neg h0]
    constructor
    · intro hc
      simp at hc
    · intro hc
      exact absurd hc.1 h0

set_option maxRecDepth 200000 in
theorem tryKeyIvPair_oracle_spec_witness :
    KEY.length = 16 ∧ IV.length = 16 ∧ 16 ≤ refCiphertext.length ∧
      (tryKeyIvPair KEY IV refCiphertext = true ↔
        byteAt (firstBlockPlain KEY IV refCiphertext) 0 = 0x5d ∧
          readUInt32LE (firstBlockPlain KEY IV refCiphertext) 1 = some 16384) :=
  ⟨by decide, by decide, by decide,
    tryKeyIvPair_oracle_spec.1 KEY IV refCiphertext (by decide) (by decide) (by decide)⟩

/-- C10: the decode pipeline reads nothing before offset 0x1000 — any two
containers agreeing from offset 0x1000 on decode identically, for every
decompressor; no header field influences the extracted assets. -/
theorem extractPrompts_depends_only_on_body :
    ∀ (lzma : List Nat → Option (List Nat)) (d1 d2 : List Nat),
      d1.drop 0x1000 = d2.drop 0x1000 → extractPrompts lzma d1 = extractPrompts lzma d2 := by
  intro lzma d1 d2 h
  unfold extractPrompts
  rw [h]

def hdrA : List Nat := List.replicate 4096 3 ++ [7, 8]

def hdrB : List Nat := List.replicate 4096 4 ++ [7, 8]

set_option maxRecDepth 1000000 in
theorem extractPrompts_depends_only_on_body_witness :
    hdrA.drop 0x1000 = hdrB.drop 0x1000 ∧
      extractPrompts (lzmaStub tbl1) hdrA = extractPrompts (lzmaStub tbl1) hdrB :=
  ⟨by decide, extractPrompts_depends_only_on_body (lzmaStub tbl1) hdrA hdrB (by decide)⟩

/-- C4 (amended): the pipeline performs no compression-type validation — the
byte at offset 0x104 that `parseHeader` reports as `compressionType` has no
influence on `extractPrompts`, which decrypts and decompresses regardless. -/
theorem extractPrompts_ignores_compression_type :
    ∀ (lzma : List Nat → Option (List Nat)) (data : List Nat) (v : Nat),
      extractPrompts lzma (data.set 0x104 v) = extractPrompts lzma data := by
  intro lzma data v
  unfold extractPrompts
  rw [List.drop_set, if_pos (by norm_num)]

/-- A 322-byte container whose compression-type byte is 7. -/
def ctypeData : List Nat := List.replicate 260 0 ++ 7 :: List.replicate 61 0

set_option maxRecDepth 1000000 in
/-- C4 (counterexample): on a container declaring `compressionType = 7`, the
pipeline does not reject — it proceeds through decryption and decompression
and returns decoded assets. -/
theorem compressionType_mismatch_not_rejected :
    (parseHeader ctypeData).map Header.compressionType = some 7 ∧ (7 : Nat) ≠ 2 ∧
      extractPrompts (lzmaStub tbl1) ctypeData = some [⟨0, 2, [0xAA, 0xBB]⟩] :=
  ⟨by decide, by decide, by decide⟩

theorem searchWindow_none (cands : List Candidate) (body : List Nat) (a : Candidate) :
    ∀ (fuel j : Nat),
      (∀ k, j ≤ k → k < j + fuel →
        tryKeyIvPair (cands.getD k ⟨0, []⟩).value a.value body = false ∧
          tryKeyIvPair a.value (cands.getD k ⟨0, []⟩).value body = false) →
      searchWindow cands body a j fuel = none := by
  intro fuel
  induction fuel with
  | zero => intro j _; rfl
  | succ fuel ih =>
    intro j h
    have hj := h j (le_refl j) (by omega)
    simp only [searchWindow, hj.1, hj.2, Bool.false_eq_true, if_false]
    exact ih (j + 1) fun k h1 h2 => h k (by omega) (by omega)

theorem searchFrom_none (cands : List Candidate) (body : List Nat) :
    ∀ (fuel ci : Nat),
      (∀ c j, ci ≤ c → c < ci + fuel → c + 1 ≤ j → j < min (c + 6) cands.length →
        tryKeyIvPair (cands.getD j ⟨0, []⟩).value (cands.getD c ⟨0, []⟩).value body = false ∧
          tryKeyIvPair (cands.getD c ⟨0, []⟩).value (cands.getD j ⟨0, []⟩).value body = false) →
      searchFrom cands body ci fuel = none := by
  intro fuel
  induction fuel with
  | zero => intro ci _; rfl
  | succ fuel ih =>
    intro ci h
    have hwin : searchWindow cands body (cands.getD ci ⟨0, []⟩) (ci + 1)
        (min (ci + 6) cands.length - (ci + 1)) = none := by
      apply searchWindow_none
      intro k hk1 hk2
      exact h ci k (le_refl ci) (by omega) hk1 (by omega)
    simp only [searchFrom, hwin]
    exact ih (ci + 1) fun c j h1 h2 h3 h4 => h c j (by omega) (by omega) h3 h4

/-- C8 (amended): when every candidate pair inside the bounded window is
rejected by the oracle across the whole candidate sequence, `extractKey` does
not hand a typed failure to its caller — it reports the failure and terminates
the host process via `process.exit(1)` (likewise when fewer than two
candidates exist). -/
theorem extractKey_exhausted_exits_process :
    ∀ (fw body : List Nat),
      (∀ ci j, ci < (findAscii16Strings fw).length → ci + 1 ≤ j →
        j < min (ci + 6) (findAscii16Strings fw).length →
        tryKeyIvPair ((findAscii16Strings fw).getD j ⟨0, []⟩).value
            ((findAscii16Strings fw).getD ci ⟨0, []⟩).value body = false ∧
          tryKeyIvPair ((findAscii16Strings fw).getD ci ⟨0, []⟩).value
            ((findAscii16Strings fw).getD j ⟨0, []⟩).value body = false) →
      extractKeyModel fw body = KeyOutcome.exitProcess 1 := by
  intro fw body h
  simp only [extractKeyModel]
  by_cases hlen : (findAscii16Strings fw).length < 2
  · rw [if_pos hlen]
  · rw [if_neg hlen,
      searchFrom_none (findAscii16Strings fw) body (findAscii16Strings fw).length 0
        (fun c j h1 h2 h3 h4 => h c j (by omega) h3 h4)]

def fwTwoRuns : List Nat := List.replicate 16 65 ++ [0] ++ (List.replicate 16 66 ++ [0])

set_option maxRecDepth 200000 in
theorem extractKey_exhausted_exits_process_witness :
    (∀ ci j, ci < (findAscii16Strings fwTwoRuns).length → ci + 1 ≤ j →
      j < min (ci + 6) (findAscii16Strings fwTwoRuns).length →
      tryKeyIvPair ((findAscii16Strings fwTwoRuns).getD j ⟨0, []⟩).value
          ((findAscii16Strings fwTwoRuns).getD ci ⟨0, []⟩).value [] = false ∧
        tryKeyIvPair ((findAscii16Strings fwTwoRuns).getD ci ⟨0, []⟩).value
          ((findAscii16Strings fwTwoRuns).getD j ⟨0, []⟩).value [] = false) ∧
      extractKeyModel fwTwoRuns [] = KeyOutcome.exitProcess 1 := by
  have hyp : ∀ ci j, ci < (findAscii16Strings fwTwoRuns).length → ci + 1 ≤ j →
      j < min (ci + 6) (findAscii16Strings fwTwoRuns).length →
      tryKeyIvPair ((findAscii16Strings fwTwoRuns).getD j ⟨0, []⟩).value
          ((findAscii16Strings fwTwoRuns).getD ci ⟨0, []⟩).value [] = false ∧
        tryKeyIvPair ((findAscii16Strings fwTwoRuns).getD ci ⟨0, []⟩).value
          ((findAscii16Strings fwTwoRuns).getD j ⟨0, []⟩).value [] = false := by
    intro ci j h1 h2 h3
    have hl : (findAscii16Strings fwTwoRuns).length = 2 := by decide
    rw [hl] at h1 h3
    have hcj : ci = 0 ∧ j = 1 := by omega
    obtain ⟨rfl, rfl⟩ := hcj
    exact ⟨by decide, by decide⟩
  exact ⟨hyp, extractKey_exhausted_exits_process fwTwoRuns [] hyp⟩

set_option maxRecDepth 200000 in
/-- C8 (counterexample): on a firmware sample with two candidates, none of
which passes the oracle against the reference body, the search ends in the
embedded `process.exit(1)` — a host-process abort, not a typed result handed
back to the caller. -/
theorem extractKey_failure_is_process_exit :
    extractKeyModel fwTwoRuns [] = KeyOutcome.exitProcess 1 ∧
      ∀ key iv keyOff ivOff,
        extractKeyModel fwTwoRuns [] ≠ KeyOutcome.found key iv keyOff ivOff := by
  have h : extractKeyModel fwTwoRuns [] = KeyOutcome.exitProcess 1 := by decide
  refine ⟨h, ?_⟩
  intro key iv keyOff ivOff hc
  rw [h] at hc
  exact KeyOutcome.noConfusion hc
